import Mathlib

/-!
Verification of the Output Interpretation Engine of the tokenSim REST API
(src/src/services/outputParser.ts), against its natural-language design
specification.

The TypeScript source is shallowly embedded here.  JavaScript strings are
modeled as `List Char` (`Str`): every string primitive the parser uses
(`split`, `trim`, `toLowerCase`, `includes`, `endsWith`, substring regexes)
is re-implemented below as an executable structural function over char
lists, exactly mirroring the JS semantics on the character classes involved
(ASCII whitespace, ASCII digits, ASCII letter case).  JavaScript
`Record<string, T>` objects are modeled as insertion-ordered association
lists where assignment replaces an existing key in place and appends a new
one (`setKey`), which is the observable behavior of JS object assignment
and `Object.entries` iteration order for the keys this program uses.
-/

set_option maxRecDepth 8192

namespace TokenSim

/-- JS strings, modeled as lists of characters. -/
abbrev Str := List Char

/-- JS whitespace test for the characters relevant to this parser
(`String.prototype.trim` / `\s` on space, tab, newline, carriage return). -/
def isWsCh (c : Char) : Bool :=
  c == ' ' || c == '\t' || c == '\n' || c == '\r'

/-- JS regex `\d` (without the `u` flag): exactly the ASCII digits,
codepoints 48..57. -/
def isDigitCh (c : Char) : Bool :=
  48 ≤ c.toNat && c.toNat ≤ 57

/-- JS `toLowerCase` on one character, for the ASCII range the classifier
compares against: `A`..`Z` (65..90) map down by 32, all else unchanged. -/
def lowerChar (c : Char) : Char :=
  if 65 ≤ c.toNat ∧ c.toNat ≤ 90 then Char.ofNat (c.toNat + 32) else c

/-- JS `String.prototype.toLowerCase`. -/
def lowerStr (s : Str) : Str := s.map lowerChar

/-- JS `String.prototype.split` with a single-character (class) separator:
splitting on every character satisfying `p`, keeping empty segments, and
returning one (possibly empty) segment even for the empty string. -/
def splitOnCh (p : Char → Bool) : Str → List Str
  | [] => [[]]
  | c :: cs =>
    if p c then [] :: splitOnCh p cs
    else
      match splitOnCh p cs with
      | [] => [[c]]
      | h :: t => (c :: h) :: t

/-- JS `String.prototype.trim`: drop whitespace from both ends. -/
def trimStr (s : Str) : Str :=
  ((s.dropWhile isWsCh).reverse.dropWhile isWsCh).reverse

/-- A string is blank iff `trim` makes it falsy, i.e. all chars are
whitespace.  `line.trim()` used as a JS boolean is `!isBlankStr line`. -/
def isBlankStr (s : Str) : Bool := s.all isWsCh

/-- The truthiness filter `filter(line => line.trim())` applied to lines by
every decoder. -/
def keepLine (l : Str) : Bool := !isBlankStr l

/-- JS `String.prototype.includes`: substring occurrence. -/
def hasSub : Str → Str → Bool
  | [], pat => pat.isEmpty
  | c :: t, pat => pat.isPrefixOf (c :: t) || hasSub t pat

/-- JS `Array.prototype.join` with separator `sep`. -/
def joinWith (sep : Str) : List Str → Str
  | [] => []
  | [x] => x
  | x :: y :: t => x ++ sep ++ joinWith sep (y :: t)

/-- JS object assignment `m[k] = v` on an insertion-ordered record:
replace in place when the key exists, append otherwise. -/
def setKey {α : Type} (m : List (Str × α)) (k : Str) (v : α) : List (Str × α) :=
  if m.any (fun p => p.1 == k) then
    m.map (fun p => if p.1 == k then (k, v) else p)
  else m ++ [(k, v)]

/-- JS record lookup `m[k]` (`undefined` becomes `none`). -/
def getKey {α : Type} (m : List (Str × α)) (k : Str) : Option α :=
  (m.find? (fun p => p.1 == k)).map (fun p => p.2)

/-- JS `x || d` for a possibly-undefined string `x`: the default is taken
when `x` is `undefined` or the empty string. -/
def jsOrStr (v : Option Str) (d : Str) : Str :=
  match v with
  | some s => if s.isEmpty then d else s
  | none => d

/-! ### Classifier (`OutputParser.detectFileType`) -/

/-- One `\d+` step of the JS regex `/^\d+\.\d+\.\d+\.\d+/`: consume a
nonempty maximal digit run (maximality is faithful: a shorter greedy match
would leave a digit where the regex requires `.` or `_`, so JS backtracking
never helps here). -/
def consumeDigits (cs : Str) : Option Str :=
  if (cs.takeWhile isDigitCh).isEmpty then none else some (cs.dropWhile isDigitCh)

/-- One literal `\.` step of the dotted-quad regex. -/
def consumeDot : Str → Option Str
  | '.' :: rest => some rest
  | _ => none

/-- The JS regex `/^(\d+\.\d+\.\d+\.\d+)/` applied at the start of a
filename: on success returns the remainder after the dotted quad. -/
def matchQuad (cs : Str) : Option Str :=
  ((((((consumeDigits cs).bind consumeDot).bind consumeDigits).bind
      consumeDot).bind consumeDigits).bind consumeDot).bind consumeDigits

/-- `OutputParser.detectFileType` (outputParser.ts lines 15-28): ordered
substring heuristics over the lower-cased filename, with the dotted-quad
regex tested against the original filename, and fallback `"unknown"`. -/
def detectFileType (filename : Str) : String :=
  if hasSub (lowerStr filename) ("hostname".toList) then "hostname"
  else if hasSub (lowerStr filename) ("dc".toList)
      || hasSub (lowerStr filename) ("datacenter".toList) then "dc"
  else if hasSub (lowerStr filename) ("tokenmap".toList) then "tokenmap"
  else if hasSub (lowerStr filename) ("emea_token".toList) then "emea_token"
  else if hasSub (lowerStr filename) ("all_tokens".toList) then "all_tokens"
  else if hasSub (lowerStr filename) ("ip_tokens".toList)
      || (matchQuad filename).isSome then "ip_tokens"
  else if hasSub (lowerStr filename) ("token_list".toList) then "token_list"
  else if (".json".toList).isSuffixOf (lowerStr filename) then "json"
  else "unknown"

/-! ### Line-format decoders (`OutputParser.parseHostname` /
`parseDatacenter` / `parseTokenmap` / `parseEmeaToken` / `parseAllTokens` /
`parseIpTokens` / `parseTokenList`).

Each decoder splits the content on newlines, keeps the truthy (non-blank)
lines, and folds a per-line step over them; the per-line steps are the loop
bodies of the source. -/

/-- Loop body of `parseHostname` (lines 34-41): split the line on `:`,
trim the parts, and when at least two parts exist record
`hostnames[parts[0]] = parts.slice(1).join(':')`. -/
def hostnameStep (acc : List (Str × Str)) (line : Str) : List (Str × Str) :=
  match (splitOnCh (fun c => c == ':') line).map trimStr with
  | ip :: h :: rest => setKey acc ip (joinWith (":".toList) (h :: rest))
  | _ => acc

def hostnameFromLines (lines : List Str) : List (Str × Str) :=
  (lines.filter keepLine).foldl hostnameStep []

/-- `OutputParser.parseHostname` (lines 30-44): the `hostnames` record. -/
def parseHostname (content : Str) : List (Str × Str) :=
  hostnameFromLines (splitOnCh (fun c => c == '\n') content)

/-- Loop body of `parseDatacenter` (lines 50-56): split the line on `:`,
trim, and when at least two parts exist record
`datacenters[parts[0]] = parts.slice(1).join(':').split(',').map(trim)`. -/
def dcStep (acc : List (Str × List Str)) (line : Str) : List (Str × List Str) :=
  match (splitOnCh (fun c => c == ':') line).map trimStr with
  | dc :: h :: rest =>
    setKey acc dc ((splitOnCh (fun c => c == ',') (joinWith (":".toList) (h :: rest))).map trimStr)
  | _ => acc

def dcFromLines (lines : List Str) : List (Str × List Str) :=
  (lines.filter keepLine).foldl dcStep []

/-- `OutputParser.parseDatacenter` (lines 46-60): the `datacenters`
record. -/
def parseDatacenter (content : Str) : List (Str × List Str) :=
  dcFromLines (splitOnCh (fun c => c == '\n') content)

/-- `line.split(/\s+/).filter(p => p.trim())` from `parseTokenmap`:
the whitespace-separated words of the line. -/
def wordsOf (line : Str) : List Str :=
  (splitOnCh isWsCh line).filter (fun p => !(trimStr p).isEmpty)

/-- Loop body of `parseTokenmap` (lines 66-74): when the line has at least
two whitespace-separated words, push `{token: parts[0], ip: parts[1]}`. -/
def tokenmapStep (acc : List (Str × Str)) (line : Str) : List (Str × Str) :=
  match wordsOf line with
  | t :: ip :: _ => acc ++ [(t, ip)]
  | _ => acc

def tokenmapFromLines (lines : List Str) : List (Str × Str) :=
  (lines.filter keepLine).foldl tokenmapStep []

/-- `OutputParser.parseTokenmap` (lines 62-77): the `tokenMappings` pair
list. -/
def parseTokenmap (content : Str) : List (Str × Str) :=
  tokenmapFromLines (splitOnCh (fun c => c == '\n') content)

/-- Loop body of the one-token-per-line decoders (`parseEmeaToken`,
`parseAllTokens`, `parseTokenList`, and the token part of `parseIpTokens`):
push the trimmed line when it is truthy. -/
def tokensStep (acc : List Str) (line : Str) : List Str :=
  if (trimStr line).isEmpty then acc else acc ++ [trimStr line]

def tokensFromLines (lines : List Str) : List Str :=
  (lines.filter keepLine).foldl tokensStep []

/-- The shared body of `parseEmeaToken` / `parseAllTokens` /
`parseTokenList` (one trimmed token per non-blank line). -/
def parseOnePerLine (content : Str) : List Str :=
  tokensFromLines (splitOnCh (fun c => c == '\n') content)

/-- The `filename.match(/^(\d+\.\d+\.\d+\.\d+)/)` capture of
`parseIpTokens` (lines 118-120): the dotted-quad prefix, or the empty
string when the filename does not start with one. -/
def extractIp (filename : Str) : Str :=
  match matchQuad filename with
  | some rest => filename.take (filename.length - rest.length)
  | none => []

/-! ### Per-file parsing (`OutputParser.parseFile`, lines 139-196) -/

/-- The kind-specific `data` payload of a parsed file.  JSON payloads are
kept opaque (`rawData`) since the unified model ignores files of type
`json` and no verified claim concerns JSON content. -/
inductive FileData where
  | hostnameData : List (Str × Str) → FileData
  | dcData : List (Str × List Str) → FileData
  | tokenmapData : List (Str × Str) → FileData
  | tokensData : List Str → FileData
  | ipTokensData : Str → List Str → FileData
  | rawData : Str → FileData
deriving Repr, DecidableEq

/-- A parsed artifact file: `{filename, type, data}` (the source's
`metadata` carries only redundant counts and is not needed by any claim).
The source field `type` is called `kind` here. -/
structure ParsedFile where
  filename : Str
  kind : String
  data : FileData
deriving Repr, DecidableEq

/-- `OutputParser.parseFile`: classify by filename, then dispatch to the
kind's decoder; unrecognized kinds keep the raw content. -/
def parseFile (filename content : Str) : ParsedFile :=
  let t := detectFileType filename
  let d : FileData :=
    if t = "json" then FileData.rawData content
    else if t = "hostname" then FileData.hostnameData (parseHostname content)
    else if t = "dc" then FileData.dcData (parseDatacenter content)
    else if t = "tokenmap" then FileData.tokenmapData (parseTokenmap content)
    else if t = "emea_token" then FileData.tokensData (parseOnePerLine content)
    else if t = "all_tokens" then FileData.tokensData (parseOnePerLine content)
    else if t = "ip_tokens" then FileData.ipTokensData (extractIp filename) (parseOnePerLine content)
    else if t = "token_list" then FileData.tokensData (parseOnePerLine content)
    else FileData.rawData content
  ⟨filename, t, d⟩

/-! ### Model builder (`OutputParser.buildUnifiedModel`, lines 198-274) -/

/-- A node of the unified model (source lines 252-260). -/
structure Node where
  ip : Str
  name : Str
  hostname : Str
  datacenter : Str
  rack : Str
  tokens : List Str
  tokenCount : Nat
deriving Repr, DecidableEq

/-- The `summary` counters of the unified model (lines 268-272). -/
structure Summary where
  totalNodes : Nat
  totalTokens : Nat
  totalDatacenters : Nat
deriving Repr, DecidableEq

/-- The unified model (`SimulationOutput['data']`). -/
structure UnifiedData where
  nodes : List Node
  datacenters : List (Str × List Str)
  hostnames : List (Str × Str)
  tokenMappings : List (Str × Str)
  summary : Summary
deriving Repr, DecidableEq

/-- `Object.assign(target, src)` for insertion-ordered records: assign
every pair of `src` into `target` in order. -/
def assignPairs {α : Type} (acc : List (Str × α)) (m : List (Str × α)) : List (Str × α) :=
  m.foldl (fun a p => setKey a p.1 p.2) acc

/-- Lines 205-210: union of all `hostname` files' records,
last-write-wins per IP. -/
def modelHostnames (parsedFiles : List ParsedFile) : List (Str × Str) :=
  parsedFiles.foldl
    (fun acc f =>
      if f.kind = "hostname" then
        match f.data with
        | FileData.hostnameData hs => assignPairs acc hs
        | _ => acc
      else acc) []

/-- Lines 212-217: union of all `dc` files' records, last-write-wins per
datacenter name. -/
def modelDatacenters (parsedFiles : List ParsedFile) : List (Str × List Str) :=
  parsedFiles.foldl
    (fun acc f =>
      if f.kind = "dc" then
        match f.data with
        | FileData.dcData ds => assignPairs acc ds
        | _ => acc
      else acc) []

/-- Lines 219-224: concatenation of all `tokenmap` files' pair lists. -/
def modelTokenMappings (parsedFiles : List ParsedFile) : List (Str × Str) :=
  parsedFiles.foldl
    (fun acc f =>
      if f.kind = "tokenmap" then
        match f.data with
        | FileData.tokenmapData ms => acc ++ ms
        | _ => acc
      else acc) []

/-- Lines 226-231: record mapping each `ip_tokens` file's IP (when truthy)
to its token list. -/
def modelIpToTokens (parsedFiles : List ParsedFile) : List (Str × List Str) :=
  parsedFiles.foldl
    (fun acc f =>
      if f.kind = "ip_tokens" then
        match f.data with
        | FileData.ipTokensData ip ts => if ip.isEmpty then acc else setKey acc ip ts
        | _ => acc
      else acc) []

/-- Lines 233-236: the `Set` of distinct IPs, in insertion order: IPs of
token mappings first, then keys of the per-IP token record. -/
def modelIpList (parsedFiles : List ParsedFile) : List Str :=
  ((modelTokenMappings parsedFiles).map (fun m => m.2)
      ++ (modelIpToTokens parsedFiles).map (fun p => p.1)).foldl
    (fun acc ip => if acc.contains ip then acc else acc ++ [ip]) []

/-- Lines 238-260: the node built for one IP.  `hostnames[ip] || ip`,
destructuring `hostname.split(':')` into name and rack, the per-IP token
file's tokens preferred over token-map pairs, and the first datacenter
whose member list contains the IP. -/
def mkNode (hostnames : List (Str × Str)) (datacenters : List (Str × List Str))
    (tokenMappings : List (Str × Str)) (ipToTokens : List (Str × List Str))
    (ip : Str) : Node :=
  let hostname := jsOrStr (getKey hostnames ip) ip
  let hparts := splitOnCh (fun c => c == ':') hostname
  let name := hparts.headD []
  let rack := match hparts with
    | _ :: r :: _ => r
    | _ => []
  let tokens := match getKey ipToTokens ip with
    | some ts => ts
    | none => (tokenMappings.filter (fun m => m.2 == ip)).map (fun m => m.1)
  let dcName := match datacenters.find? (fun p => p.2.contains ip) with
    | some p => p.1
    | none => []
  { ip := ip
    name := if name.isEmpty then ip else name
    hostname := if hostname.isEmpty then ip else hostname
    datacenter := if dcName.isEmpty then "unknown".toList else dcName
    rack := rack
    tokens := tokens
    tokenCount := tokens.length }

/-- The `nodes` array of the unified model: one node per distinct IP. -/
def modelNodes (parsedFiles : List ParsedFile) : List Node :=
  (modelIpList parsedFiles).map
    (mkNode (modelHostnames parsedFiles) (modelDatacenters parsedFiles)
      (modelTokenMappings parsedFiles) (modelIpToTokens parsedFiles))

/-- `OutputParser.buildUnifiedModel` (lines 198-274). -/
def buildUnifiedModel (parsedFiles : List ParsedFile) : UnifiedData :=
  { nodes := modelNodes parsedFiles
    datacenters := modelDatacenters parsedFiles
    hostnames := modelHostnames parsedFiles
    tokenMappings := modelTokenMappings parsedFiles
    summary :=
      { totalNodes := (modelNodes parsedFiles).length
        totalTokens := (modelNodes parsedFiles).foldl (fun s n => s + n.tokenCount) 0
        totalDatacenters := (modelDatacenters parsedFiles).length } }

/-! ### Console report extractor (`OutputParser.parseTerminalOutput`,
lines 279-492).

The claims under verification concern the `success` flag and the error
lists; the extractor's per-datacenter section parsing (lines 368-486) only
populates `structured.dataCenters` and cannot influence those fields, so
the report is modeled with the fields the claims mention. -/

/-- The console report fields relevant to the verified claims:
the top-level `success` flag, the raw transcript, the top-level `errors`
and `warnings` arrays (initialized to `[]`), and the optional
`structured.errors` / `structured.warnings` arrays (absent unless set). -/
structure ConsoleReport where
  success : Bool
  raw : Str
  errors : List Str
  warnings : List Str
  structuredErrors : Option (List Str)
  structuredWarnings : Option (List Str)
deriving Repr, DecidableEq

/-- The stderr filter of lines 338-343: a kept line is truthy and its
lowercase form contains `error`, `failed`, or `exception`. -/
def errKeywordLine (l : Str) : Bool :=
  hasSub (lowerStr l) ("error".toList) || hasSub (lowerStr l) ("failed".toList)
    || hasSub (lowerStr l) ("exception".toList)

/-- `stderr.split('\n').filter(...)` of lines 338-343. -/
def stderrErrorLines (s : Str) : List Str :=
  (splitOnCh (fun c => c == '\n') s).filter (fun l => keepLine l && errKeywordLine l)

/-- The stdout test `line.match(/^ERROR\s+/i)` of line 351: the line
begins (at position 0, no leading whitespace allowed) with `ERROR`
case-insensitively, followed by at least one whitespace character. -/
def stdoutErrorStart (l : Str) : Bool :=
  match lowerStr l with
  | 'e' :: 'r' :: 'r' :: 'o' :: 'r' :: c :: _ => isWsCh c
  | _ => false

/-- `stdout.split('\n').filter(...)` of lines 349-352. -/
def stdoutErrorLines (out : Str) : List Str :=
  (splitOnCh (fun c => c == '\n') out).filter (fun l => keepLine l && stdoutErrorStart l)

/-- The warning filter of lines 358-362. -/
def warningLine (l : Str) : Bool :=
  hasSub (lowerStr l) ("warning".toList) && !hasSub (lowerStr l) ("no warnings".toList)

def stdoutWarningLines (out : Str) : List Str :=
  (splitOnCh (fun c => c == '\n') out).filter (fun l => keepLine l && warningLine l)

/-- The top-level `output.errors` array: `[]` initially, set to the
filtered stderr lines only when `stderr` is truthy (lines 337-344). -/
def topErrors (stderr : Option Str) : List Str :=
  match stderr with
  | some s => if s.isEmpty then [] else stderrErrorLines s
  | none => []

/-- `output.structured.errors`: absent initially, set to the stderr error
lines when stderr is truthy (line 345), then extended with the stdout
`ERROR` lines when any exist (lines 353-355). -/
def structErrors (stdout : Str) (stderr : Option Str) : Option (List Str) :=
  let s0 : Option (List Str) :=
    match stderr with
    | some s => if s.isEmpty then none else some (stderrErrorLines s)
    | none => none
  if (stdoutErrorLines stdout).isEmpty then s0
  else some (s0.getD [] ++ stdoutErrorLines stdout)

/-- `success: !stderr || stderr.trim().length === 0` (line 489). -/
def successFlag (stderr : Option Str) : Bool :=
  match stderr with
  | none => true
  | some s => s.isEmpty || (trimStr s).isEmpty

/-- `OutputParser.parseTerminalOutput`, restricted to the fields the
claims mention (see the section comment). -/
def parseTerminalOutput (stdout : Str) (stderr : Option Str) : ConsoleReport :=
  { success := successFlag stderr
    raw := stdout
    errors := topErrors stderr
    warnings := if (stdoutWarningLines stdout).isEmpty then [] else stdoutWarningLines stdout
    structuredErrors := structErrors stdout stderr
    structuredWarnings :=
      if (stdoutWarningLines stdout).isEmpty then none else some (stdoutWarningLines stdout) }

/-! ### Orchestrator (`OutputParser.parseOutput`, lines 494-553).

The filesystem is abstracted as the directory's observable content: `none`
when `fileManager.fileExists(outputPath)` is false, otherwise the ordered
list of `(filename, content)` pairs produced by `listFiles` + `readFile`. -/

/-- The `parsed.summary` block (lines 535-537, 544-549). -/
structure FileSummary where
  totalFiles : Nat
  txtFiles : Nat
  jsonFiles : Nat
  fileTypes : List String
deriving Repr, DecidableEq

/-- The full result of `parseOutput` (`SimulationOutput`). -/
structure SimulationOutput where
  files : List ParsedFile
  fileSummary : FileSummary
  data : UnifiedData
deriving Repr, DecidableEq

/-- `[...new Set(parsedFiles.map(f => f.type))]`: distinct kinds in first
occurrence order. -/
def distinctKinds (parsedFiles : List ParsedFile) : List String :=
  (parsedFiles.map (fun f => f.kind)).foldl
    (fun acc t => if acc.contains t then acc else acc ++ [t]) []

/-- `OutputParser.parseOutput` (lines 494-553): an absent output
directory yields the literal empty result of lines 501-522; otherwise each
file is parsed and the unified model is built. -/
def parseOutput (outputDir : Option (List (Str × Str))) : SimulationOutput :=
  match outputDir with
  | none => ⟨[], ⟨0, 0, 0, []⟩, ⟨[], [], [], [], ⟨0, 0, 0⟩⟩⟩
  | some fileList =>
    let parsedFiles := fileList.map (fun fc => parseFile fc.1 fc.2)
    ⟨parsedFiles,
      ⟨fileList.length,
        (parsedFiles.filter (fun f => (".txt".toList).isSuffixOf f.filename)).length,
        (parsedFiles.filter (fun f => (".json".toList).isSuffixOf f.filename)).length,
        distinctKinds parsedFiles⟩,
      buildUnifiedModel parsedFiles⟩

/-! ## General lemmas about the string primitives -/

theorem mem_of_isPrefixOf {p l : Str} (h : p.isPrefixOf l = true) {c : Char}
    (hc : c ∈ p) : c ∈ l := by
  induction p generalizing l with
  | nil => cases hc
  | cons x xs ih =>
    cases l with
    | nil => simp [List.isPrefixOf] at h
    | cons b bs =>
      simp only [List.isPrefixOf, Bool.and_eq_true, beq_iff_eq] at h
      rcases List.mem_cons.1 hc with rfl | hm
      · exact h.1 ▸ List.mem_cons_self _ _
      · exact List.mem_cons_of_mem _ (ih h.2 hm)

theorem mem_of_hasSub {s pat : Str} (h : hasSub s pat = true) {c : Char}
    (hc : c ∈ pat) : c ∈ s := by
  induction s with
  | nil =>
    simp only [hasSub, List.isEmpty_iff] at h
    subst h; cases hc
  | cons a t ih =>
    simp only [hasSub, Bool.or_eq_true] at h
    rcases h with h | h
    · exact mem_of_isPrefixOf h hc
    · exact List.mem_cons_of_mem _ (ih h)

theorem hasSub_eq_false {s pat : Str} {c : Char} (hc : c ∈ pat) (hn : c ∉ s) :
    hasSub s pat = false := by
  cases h : hasSub s pat
  · rfl
  · exact absurd (mem_of_hasSub h hc) hn

theorem splitOnCh_ne_nil (p : Char → Bool) (s : Str) : splitOnCh p s ≠ [] := by
  induction s with
  | nil => simp [splitOnCh]
  | cons c cs ih =>
    simp only [splitOnCh]
    split
    · simp
    · cases h : splitOnCh p cs with
      | nil => exact absurd h ih
      | cons a b => simp [h]

theorem splitOnCh_of_no {p : Char → Bool} {s : Str} (h : ∀ c ∈ s, p c = false) :
    splitOnCh p s = [s] := by
  induction s with
  | nil => rfl
  | cons c cs ih =>
    have hc : p c = false := h c (List.mem_cons_self _ _)
    have hrest := ih (fun x hx => h x (List.mem_cons_of_mem _ hx))
    simp [splitOnCh, hc, hrest]

theorem splitOnCh_append_cons {p : Char → Bool} {a b : Str} {hb : Str} {tb : List Str}
    (hsplit : splitOnCh p b = hb :: tb) (ha : ∀ c ∈ a, p c = false) :
    splitOnCh p (a ++ b) = (a ++ hb) :: tb := by
  induction a with
  | nil => simpa using hsplit
  | cons c a' ih =>
    have hc : p c = false := ha c (List.mem_cons_self _ _)
    have hrest := ih (fun x hx => ha x (List.mem_cons_of_mem _ hx))
    simp [splitOnCh, hc, hrest]

theorem splitOnCh_sep {p : Char → Bool} {a b : Str} {c : Char}
    (hc : p c = true) (ha : ∀ x ∈ a, p x = false) :
    splitOnCh p (a ++ c :: b) = a :: splitOnCh p b := by
  have h1 : splitOnCh p (c :: b) = [] :: splitOnCh p b := by
    simp [splitOnCh, hc]
  have := splitOnCh_append_cons (a := a) h1 ha
  simpa using this

theorem splitOnCh_joinWith {c : Char} {ls : List Str} (hne : ls ≠ [])
    (h : ∀ l ∈ ls, c ∉ l) :
    splitOnCh (fun x => x == c) (joinWith [c] ls) = ls := by
  induction ls with
  | nil => exact absurd rfl hne
  | cons l rest ih =>
    cases rest with
    | nil =>
      have : ∀ x ∈ l, (x == c) = false := by
        intro x hx
        have : x ≠ c := fun he => (h l (List.mem_cons_self _ _)) (he ▸ hx)
        simp [this]
      simp [joinWith, splitOnCh_of_no this]
    | cons l₂ t =>
      have hrest := ih (by simp) (fun x hx => h x (List.mem_cons_of_mem _ hx))
      have hl : ∀ x ∈ l, (x == c) = false := by
        intro x hx
        have : x ≠ c := fun he => (h l (List.mem_cons_self _ _)) (he ▸ hx)
        simp [this]
      have hjw : joinWith [c] (l :: l₂ :: t) = l ++ c :: joinWith [c] (l₂ :: t) := by
        simp [joinWith]
      rw [hjw, splitOnCh_sep (by simp) hl, hrest]

theorem mem_joinWith {c : Char} {ls : List Str} {x : Char}
    (h : x ∈ joinWith [c] ls) : x = c ∨ ∃ l ∈ ls, x ∈ l := by
  induction ls with
  | nil => cases h
  | cons l rest ih =>
    cases rest with
    | nil =>
      simp only [joinWith] at h
      exact Or.inr ⟨l, List.mem_cons_self _ _, h⟩
    | cons l₂ t =>
      have hjw : joinWith [c] (l :: l₂ :: t) = l ++ c :: joinWith [c] (l₂ :: t) := by
        simp [joinWith]
      rw [hjw] at h
      rcases List.mem_append.1 h with h | h
      · exact Or.inr ⟨l, List.mem_cons_self _ _, h⟩
      · rcases List.mem_cons.1 h with rfl | h
        · exact Or.inl rfl
        · rcases ih h with h | ⟨l', hl', hx⟩
          · exact Or.inl h
          · exact Or.inr ⟨l', List.mem_cons_of_mem _ hl', hx⟩

theorem dropWhile_eq_self_of {p : Char → Bool} {l : Str}
    (h : ∀ c ∈ l, p c = false) : l.dropWhile p = l := by
  cases l with
  | nil => rfl
  | cons c t =>
    rw [List.dropWhile_cons, if_neg]
    simp [h c (List.mem_cons_self _ _)]

theorem trimStr_eq_self {l : Str} (h : ∀ c ∈ l, isWsCh c = false) :
    trimStr l = l := by
  unfold trimStr
  rw [dropWhile_eq_self_of h, dropWhile_eq_self_of, List.reverse_reverse]
  intro c hc
  exact h c (List.mem_reverse.1 hc)

theorem trimStr_eq_nil_iff (s : Str) :
    trimStr s = [] ↔ ∀ c ∈ s, isWsCh c = true := by
  unfold trimStr
  rw [List.reverse_eq_nil_iff, List.dropWhile_eq_nil_iff]
  constructor
  · intro h c hc
    have hs : c ∈ s.takeWhile isWsCh ++ s.dropWhile isWsCh := by
      rw [List.takeWhile_append_dropWhile]
      exact hc
    rcases List.mem_append.1 hs with h' | h'
    · exact List.mem_takeWhile_imp h'
    · exact h c (List.mem_reverse.2 h')
  · intro h c hc
    have hc' : c ∈ s.takeWhile isWsCh ++ s.dropWhile isWsCh :=
      List.mem_append.2 (Or.inr (List.mem_reverse.1 hc))
    rw [List.takeWhile_append_dropWhile] at hc'
    exact h c hc'

theorem setKey_append {α : Type} {m : List (Str × α)} {k : Str} {v : α}
    (h : k ∉ m.map Prod.fst) : setKey m k v = m ++ [(k, v)] := by
  unfold setKey
  rw [if_neg]
  intro hany
  rcases List.any_eq_true.1 hany with ⟨p, hp, hpk⟩
  exact h ((beq_iff_eq.1 hpk) ▸ List.mem_map.2 ⟨p, hp, rfl⟩)

/-! ## C8: empty output directory -/

/-- C8: when the project's output directory is absent, or present but
holding zero artifact files, `parseOutput` returns (not an error) the
empty unified model with all-zero summary counters. -/
theorem c8_theorem :
    (parseOutput none).data = ⟨[], [], [], [], ⟨0, 0, 0⟩⟩ ∧
    (parseOutput (some [])).data = ⟨[], [], [], [], ⟨0, 0, 0⟩⟩ := by
  constructor <;> rfl

/-! ## C1: the two-file example of the spec -/

/-- C1 counterexample: on the exact input of the claim — hostname file
content `10.0.0.1=web1:rack2` and per-IP token file `10.0.0.1.txt` with
content `111,222` — the unified model has exactly one node, and it does
not have hostname `web1`, rack `rack2`, tokens `["111","222"]`, or
tokenCount 2: the hostname decoder splits on `:` (not `=`), so the line
registers under key `10.0.0.1=web1`, and the per-IP decoder takes one
token per line without comma splitting. -/
theorem c1_counterexample :
    (buildUnifiedModel [parseFile ("hostname.txt".toList) ("10.0.0.1=web1:rack2".toList),
        parseFile ("10.0.0.1.txt".toList) ("111,222".toList)]).nodes =
      [⟨"10.0.0.1".toList, "10.0.0.1".toList, "10.0.0.1".toList, "unknown".toList, [],
        ["111,222".toList], 1⟩] ∧
    ((buildUnifiedModel [parseFile ("hostname.txt".toList) ("10.0.0.1=web1:rack2".toList),
        parseFile ("10.0.0.1.txt".toList) ("111,222".toList)]).nodes.all
      (fun n => !(n.hostname == "web1".toList && n.rack == "rack2".toList
        && n.tokens == ["111".toList, "222".toList] && n.tokenCount == 2))) = true := by
  constructor <;> decide

/-- C1 (amended): with the delimiters the code actually implements — a
hostname file line `10.0.0.1:web1:rack2` (colon-delimited) and a per-IP
token file `10.0.0.1.txt` containing the two lines `111` and `222` — the
unified model contains exactly the node for `10.0.0.1` with name `web1`,
hostname `web1:rack2`, rack `rack2`, tokens `["111","222"]`, and
tokenCount 2. -/
theorem c1_theorem :
    (buildUnifiedModel [parseFile ("hostname.txt".toList) ("10.0.0.1:web1:rack2".toList),
        parseFile ("10.0.0.1.txt".toList) ("111\n222".toList)]).nodes =
      [⟨"10.0.0.1".toList, "web1".toList, "web1:rack2".toList, "unknown".toList,
        "rack2".toList, ["111".toList, "222".toList], 2⟩] := by
  decide

/-! ## C10: tokenCount invariant -/

/-- C10: for every list of parsed files, every node of the unified model
has `tokenCount` equal to the length of its `tokens` list (the builder
sets `tokenCount: tokens.length` at construction). -/
theorem c10_theorem (parsedFiles : List ParsedFile) (n : Node)
    (h : n ∈ (buildUnifiedModel parsedFiles).nodes) :
    n.tokenCount = n.tokens.length := by
  simp only [buildUnifiedModel, modelNodes] at h
  rcases List.mem_map.1 h with ⟨ip, _, rfl⟩
  rfl

theorem c10_witness :
    (⟨"10.0.0.1".toList, "10.0.0.1".toList, "10.0.0.1".toList, "unknown".toList, [],
        ["111".toList, "222".toList], 2⟩ : Node) ∈
      (buildUnifiedModel [parseFile ("10.0.0.1.txt".toList) ("111\n222".toList)]).nodes ∧
    (⟨"10.0.0.1".toList, "10.0.0.1".toList, "10.0.0.1".toList, "unknown".toList, [],
        ["111".toList, "222".toList], 2⟩ : Node).tokenCount =
      (⟨"10.0.0.1".toList, "10.0.0.1".toList, "10.0.0.1".toList, "unknown".toList, [],
        ["111".toList, "222".toList], 2⟩ : Node).tokens.length :=
  ⟨by decide,
    c10_theorem [parseFile ("10.0.0.1.txt".toList) ("111\n222".toList)]
      ⟨"10.0.0.1".toList, "10.0.0.1".toList, "10.0.0.1".toList, "unknown".toList, [],
        ["111".toList, "222".toList], 2⟩ (by decide)⟩

/-! ## C5: token-map pair count -/

/-- The non-blank lines of a content string, as every decoder computes
them (`content.split('\n').filter(line => line.trim())`). -/
def nonBlankLines (content : Str) : List Str :=
  (splitOnCh (fun c => c == '\n') content).filter keepLine

theorem tokenmap_foldl_length (ls : List Str) (acc : List (Str × Str))
    (h : ∀ l ∈ ls, 2 ≤ (wordsOf l).length) :
    (ls.foldl tokenmapStep acc).length = acc.length + ls.length := by
  induction ls generalizing acc with
  | nil => simp
  | cons l rest ih =>
    have hl : 2 ≤ (wordsOf l).length := h l (List.mem_cons_self _ _)
    have hstep : (tokenmapStep acc l).length = acc.length + 1 := by
      unfold tokenmapStep
      cases hw : wordsOf l with
      | nil => rw [hw] at hl; simp at hl
      | cons t rest' =>
        cases rest' with
        | nil => rw [hw] at hl; simp at hl
        | cons ip r => simp
    rw [List.foldl_cons, ih _ (fun x hx => h x (List.mem_cons_of_mem _ hx)), hstep]
    simp [Nat.add_assoc, Nat.add_comm 1]

/-- C5 counterexample: the content `t1=1.1.1.1` has one non-blank line and
that line is a `token=ip` pair, yet the token-map decoder produces zero
pairs — it splits lines on whitespace (`/\s+/`), not on `=`. -/
theorem c5_counterexample :
    (parseTokenmap ("t1=1.1.1.1".toList)).length = 0 ∧
    (nonBlankLines ("t1=1.1.1.1".toList)).length = 1 ∧
    "t1=1.1.1.1".toList ∈ nonBlankLines ("t1=1.1.1.1".toList) := by
  refine ⟨by decide, by decide, by decide⟩

/-- C5 (amended): for every input text in which every non-blank line
consists of at least two whitespace-separated words (the `token ip` format
the code implements), the token-map decoder produces exactly one pair per
non-blank line. -/
theorem c5_theorem (content : Str)
    (h : ∀ l ∈ nonBlankLines content, 2 ≤ (wordsOf l).length) :
    (parseTokenmap content).length = (nonBlankLines content).length := by
  unfold parseTokenmap tokenmapFromLines
  unfold nonBlankLines at h
  rw [tokenmap_foldl_length _ _ h]
  simp [nonBlankLines]

theorem c5_witness :
    (∀ l ∈ nonBlankLines ("aaa 1.1.1.1\nbbb 2.2.2.2".toList), 2 ≤ (wordsOf l).length) ∧
    (parseTokenmap ("aaa 1.1.1.1\nbbb 2.2.2.2".toList)).length =
      (nonBlankLines ("aaa 1.1.1.1\nbbb 2.2.2.2".toList)).length :=
  ⟨by decide, c5_theorem ("aaa 1.1.1.1\nbbb 2.2.2.2".toList) (by decide)⟩

/-! ## C9: malformed lines are dropped without affecting siblings -/

theorem filterFold_drop {β : Type} (step : β → Str → β) (init : β)
    (pre post : List Str) (bad : Str)
    (h : isBlankStr bad = true ∨ ∀ acc, step acc bad = acc) :
    ((pre ++ bad :: post).filter keepLine).foldl step init =
      ((pre ++ post).filter keepLine).foldl step init := by
  rw [List.filter_append, List.filter_append, List.filter_cons]
  rcases h with hb | hs
  · simp [keepLine, hb]
  · cases hk : keepLine bad with
    | false => simp [hk]
    | true =>
      simp only [hk, if_true]
      rw [List.foldl_append, List.foldl_append, List.foldl_cons, hs]

/-- C9: the decoders are total functions (they never throw by
construction), and a line without the decoder's delimiter — no `:` for the
hostname and datacenter decoders, no whitespace separator for the
token-map decoder — is dropped: decoding a line list containing it equals
decoding the list with that line removed, leaving all sibling lines'
records unchanged. -/
theorem c9_theorem (pre post : List Str) (bad : Str) :
    ((':' ∉ bad) →
      hostnameFromLines (pre ++ bad :: post) = hostnameFromLines (pre ++ post) ∧
      dcFromLines (pre ++ bad :: post) = dcFromLines (pre ++ post)) ∧
    ((∀ c ∈ bad, isWsCh c = false) →
      tokenmapFromLines (pre ++ bad :: post) = tokenmapFromLines (pre ++ post)) := by
  constructor
  · intro hcolon
    have hsplit : splitOnCh (fun c => c == ':') bad = [bad] := by
      apply splitOnCh_of_no
      intro c hc
      have : c ≠ ':' := fun he => hcolon (he ▸ hc)
      simp [this]
    constructor
    · unfold hostnameFromLines
      apply filterFold_drop
      right
      intro acc
      simp [hostnameStep, hsplit]
    · unfold dcFromLines
      apply filterFold_drop
      right
      intro acc
      simp [dcStep, hsplit]
  · intro hws
    have hsplit : splitOnCh isWsCh bad = [bad] := splitOnCh_of_no hws
    have hwords : wordsOf bad = [] ∨ wordsOf bad = [bad] := by
      unfold wordsOf
      rw [hsplit, List.filter_singleton]
      cases hp : !(trimStr bad).isEmpty
      · left; simp [hp]
      · right; simp [hp]
    unfold tokenmapFromLines
    apply filterFold_drop
    right
    intro acc
    unfold tokenmapStep
    rcases hwords with hw | hw <;> rw [hw]

theorem c9_witness :
    (hostnameFromLines (["10.0.0.1:h1:r1".toList] ++ "garbage".toList :: ["10.0.0.2:h2:r2".toList]) =
        hostnameFromLines (["10.0.0.1:h1:r1".toList] ++ ["10.0.0.2:h2:r2".toList]) ∧
      dcFromLines (["10.0.0.1:h1:r1".toList] ++ "garbage".toList :: ["10.0.0.2:h2:r2".toList]) =
        dcFromLines (["10.0.0.1:h1:r1".toList] ++ ["10.0.0.2:h2:r2".toList])) ∧
    tokenmapFromLines (["t1 10.0.0.1".toList] ++ "garbage".toList :: ["t2 10.0.0.2".toList]) =
      tokenmapFromLines (["t1 10.0.0.1".toList] ++ ["t2 10.0.0.2".toList]) :=
  ⟨( c9_theorem ["10.0.0.1:h1:r1".toList] ["10.0.0.2:h2:r2".toList] ("garbage".toList)).1
      (by decide),
    ( c9_theorem ["t1 10.0.0.1".toList] ["t2 10.0.0.2".toList] ("garbage".toList)).2
      (by decide)⟩

/-! ## C2: error extraction from stderr and stdout -/

/-- C2 counterexample: stderr `boom` is a single non-empty line, yet the
report's error list is empty — the code keeps only stderr lines containing
`error`, `failed`, or `exception`, so not every stderr line is treated as
an error. -/
theorem c2_counterexample :
    "boom".toList ∈ splitOnCh (fun c => c == '\n') ("boom".toList) ∧
    isBlankStr ("boom".toList) = false ∧
    (parseTerminalOutput [] (some ("boom".toList))).errors = [] ∧
    (parseTerminalOutput [] (some ("boom".toList))).structuredErrors = some [] := by
  refine ⟨by decide, by decide, by decide, by decide⟩

/-- C2 (amended): every non-blank stderr line whose lowercase form
contains `error`, `failed`, or `exception` appears in the report's
top-level error list, and every non-blank stdout line that begins at
position 0 with `ERROR` (case-insensitive) followed by at least one
whitespace character is appended to the structured error set. -/
theorem c2_theorem (stdout stderrS line : Str) (stderrOpt : Option Str) :
    (line ∈ splitOnCh (fun c => c == '\n') stderrS → isBlankStr line = false →
      errKeywordLine line = true →
      line ∈ (parseTerminalOutput stdout (some stderrS)).errors) ∧
    (line ∈ splitOnCh (fun c => c == '\n') stdout → isBlankStr line = false →
      stdoutErrorStart line = true →
      line ∈ ((parseTerminalOutput stdout stderrOpt).structuredErrors).getD []) := by
  constructor
  · intro hmem hblank hkw
    show line ∈ topErrors (some stderrS)
    cases stderrS with
    | nil =>
      simp only [splitOnCh] at hmem
      rcases List.mem_singleton.1 hmem with rfl
      simp [isBlankStr] at hblank
    | cons a s =>
      show line ∈ stderrErrorLines (a :: s)
      exact List.mem_filter.2 ⟨hmem, by simp [keepLine, hblank, hkw]⟩
  · intro hmem hblank hst
    show line ∈ (structErrors stdout stderrOpt).getD []
    have hline : line ∈ stdoutErrorLines stdout :=
      List.mem_filter.2 ⟨hmem, by simp [keepLine, hblank, hst]⟩
    have hne : (stdoutErrorLines stdout).isEmpty = false := by
      cases he : stdoutErrorLines stdout
      · rw [he] at hline; cases hline
      · rfl
    unfold structErrors
    rw [hne]
    simp only [Bool.false_eq_true, if_false, Option.getD_some]
    exact List.mem_append.2 (Or.inr hline)

theorem c2_witness :
    "ERROR bad".toList ∈
      (parseTerminalOutput ("ERROR bad".toList) (some ("ERROR bad".toList))).errors ∧
    "ERROR bad".toList ∈
      ((parseTerminalOutput ("ERROR bad".toList) (some ("ERROR bad".toList))).structuredErrors).getD [] :=
  ⟨( c2_theorem ("ERROR bad".toList) ("ERROR bad".toList) ("ERROR bad".toList)
        (some ("ERROR bad".toList))).1 (by decide) (by decide) (by decide),
    ( c2_theorem ("ERROR bad".toList) ("ERROR bad".toList) ("ERROR bad".toList)
        (some ("ERROR bad".toList))).2 (by decide) (by decide) (by decide)⟩

/-! ## C3: the success flag -/

/-- The claim's condition: stderr absent, empty, or whitespace-only. -/
def stderrBlankOpt : Option Str → Bool
  | none => true
  | some s => s.all isWsCh

/-- C3: for every stdout and stderr, `success` is true iff stderr is
absent, empty, or whitespace-only; and when stderr is absent or empty and
no stdout line starts with `error` (case-insensitive), the error list is
empty and the structured error set is unset. -/
theorem c3_theorem (stdout : Str) (stderr : Option Str) :
    ((parseTerminalOutput stdout stderr).success = stderrBlankOpt stderr) ∧
    ((stderr = none ∨ stderr = some []) →
      (∀ l ∈ splitOnCh (fun c => c == '\n') stdout,
        (['e', 'r', 'r', 'o', 'r'].isPrefixOf (lowerStr l)) = false) →
      (parseTerminalOutput stdout stderr).errors = [] ∧
      (parseTerminalOutput stdout stderr).structuredErrors = none) := by
  constructor
  · show successFlag stderr = stderrBlankOpt stderr
    cases stderr with
    | none => rfl
    | some s =>
      show (s.isEmpty || (trimStr s).isEmpty) = s.all isWsCh
      cases ha : s.all isWsCh with
      | true =>
        have h1 : trimStr s = [] := (trimStr_eq_nil_iff s).2 (List.all_eq_true.1 ha)
        simp [h1]
      | false =>
        have h2 : s ≠ [] := by
          rintro rfl
          simp at ha
        have h3 : trimStr s ≠ [] := by
          intro hts
          have hall := List.all_eq_true.2 ((trimStr_eq_nil_iff s).1 hts)
          rw [ha] at hall
          exact Bool.false_ne_true hall
        have e1 : s.isEmpty = false := by
          cases s
          · exact absurd rfl h2
          · rfl
        have e2 : (trimStr s).isEmpty = false := by
          cases hts : trimStr s
          · exact absurd hts h3
          · rfl
        rw [e1, e2]
        rfl
  · intro hse hnp
    have houtnil : stdoutErrorLines stdout = [] := by
      unfold stdoutErrorLines
      rw [List.filter_eq_nil_iff]
      intro l hl hcontra
      rw [Bool.and_eq_true] at hcontra
      have hst : stdoutErrorStart l = true := hcontra.2
      unfold stdoutErrorStart at hst
      split at hst
      · next c rest heq =>
          have hpre : (['e', 'r', 'r', 'o', 'r'].isPrefixOf (lowerStr l)) = true := by
            rw [heq]
            simp [List.isPrefixOf]
          rw [hnp l hl] at hpre
          exact Bool.false_ne_true hpre
      · exact Bool.false_ne_true hst
    rcases hse with rfl | rfl
    · exact ⟨rfl, by show structErrors stdout none = none; simp [structErrors, houtnil]⟩
    · exact ⟨rfl, by show structErrors stdout (some []) = none; simp [structErrors, houtnil]⟩

theorem c3_witness :
    (∀ l ∈ splitOnCh (fun c => c == '\n') ("all good".toList),
      (['e', 'r', 'r', 'o', 'r'].isPrefixOf (lowerStr l)) = false) ∧
    (parseTerminalOutput ("all good".toList) none).errors = [] ∧
    (parseTerminalOutput ("all good".toList) none).structuredErrors = none :=
  ⟨by decide, ( c3_theorem ("all good".toList) none).2 (Or.inl rfl) (by decide)⟩

/-! ## C4 and C7: the classifier -/

theorem consumeDigits_chars {cs r : Str} (h : consumeDigits cs = some r) :
    ∀ c ∈ cs, isDigitCh c = true ∨ c ∈ r := by
  unfold consumeDigits at h
  split at h
  · cases h
  · cases h
    intro c hc
    have hsplit : c ∈ cs.takeWhile isDigitCh ++ cs.dropWhile isDigitCh := by
      rw [List.takeWhile_append_dropWhile]
      exact hc
    rcases List.mem_append.1 hsplit with h' | h'
    · exact Or.inl (List.mem_takeWhile_imp h')
    · exact Or.inr h'

theorem consumeDot_chars {cs r : Str} (h : consumeDot cs = some r) :
    ∀ c ∈ cs, c = '.' ∨ c ∈ r := by
  unfold consumeDot at h
  split at h
  · cases h
    intro c hc
    rcases List.mem_cons.1 hc with rfl | hm
    · exact Or.inl rfl
    · exact Or.inr hm
  · cases h

theorem matchQuad_chars {cs rest : Str} (h : matchQuad cs = some rest) :
    ∀ c ∈ cs, isDigitCh c = true ∨ c = '.' ∨ c ∈ rest := by
  unfold matchQuad at h
  rcases Option.bind_eq_some.1 h with ⟨r6, h6, hd4⟩
  rcases Option.bind_eq_some.1 h6 with ⟨r5, h5, hc3⟩
  rcases Option.bind_eq_some.1 h5 with ⟨r4, h4, hd3⟩
  rcases Option.bind_eq_some.1 h4 with ⟨r3, h3, hc2⟩
  rcases Option.bind_eq_some.1 h3 with ⟨r2, h2, hd2⟩
  rcases Option.bind_eq_some.1 h2 with ⟨r1, h1, hc1⟩
  intro c hc
  rcases consumeDigits_chars h1 c hc with hd | hm
  · exact Or.inl hd
  rcases consumeDot_chars hc1 c hm with hd | hm
  · exact Or.inr (Or.inl hd)
  rcases consumeDigits_chars hd2 c hm with hd | hm
  · exact Or.inl hd
  rcases consumeDot_chars hc2 c hm with hd | hm
  · exact Or.inr (Or.inl hd)
  rcases consumeDigits_chars hd3 c hm with hd | hm
  · exact Or.inl hd
  rcases consumeDot_chars hc3 c hm with hd | hm
  · exact Or.inr (Or.inl hd)
  rcases consumeDigits_chars hd4 c hm with hd | hm
  · exact Or.inl hd
  · exact Or.inr (Or.inr hm)

/-- Characters that can occur in a filename matched by the claim's first
pattern `^\d+\.\d+\.\d+\.\d+(\.txt)?$`: ASCII digits, `.`, `t`, `x`. -/
def safeCh (c : Char) : Bool :=
  isDigitCh c || c == '.' || c == 't' || c == 'x'

theorem lowerChar_safe {c : Char} (h : safeCh c = true) : lowerChar c = c := by
  simp only [safeCh, Bool.or_eq_true, beq_iff_eq] at h
  rcases h with ((hd | rfl) | rfl) | rfl
  · simp only [isDigitCh, Bool.and_eq_true, decide_eq_true_eq] at hd
    unfold lowerChar
    rw [if_neg]
    omega
  · decide
  · decide
  · decide

theorem safeCh_ne {c : Char} (h : safeCh c = true) :
    c ≠ 'h' ∧ c ≠ 'd' ∧ c ≠ 'k' ∧ c ≠ 'e' ∧ c ≠ 'a' := by
  simp only [safeCh, Bool.or_eq_true, beq_iff_eq] at h
  rcases h with ((hd | rfl) | rfl) | rfl
  · refine ⟨?_, ?_, ?_, ?_, ?_⟩ <;> rintro rfl <;> exact absurd hd (by decide)
  · decide
  · decide
  · decide

/-- The claim's first pattern `^\d+\.\d+\.\d+\.\d+(\.txt)?$`. -/
def matchesBareIpName (f : Str) : Bool :=
  match matchQuad f with
  | some rest => rest.isEmpty || rest == ['.', 't', 'x', 't']
  | none => false

/-- The claim's second pattern `^\d+\.\d+\.\d+\.\d+_`. -/
def matchesIpUnderscoreName (f : Str) : Bool :=
  match matchQuad f with
  | some ('_' :: _) => true
  | _ => false

/-- The classifier rules that are tried before the per-IP-token rule
(outputParser.ts lines 18-22). -/
def earlierRuleMatches (f : Str) : Bool :=
  hasSub (lowerStr f) ("hostname".toList) || hasSub (lowerStr f) ("dc".toList)
    || hasSub (lowerStr f) ("datacenter".toList) || hasSub (lowerStr f) ("tokenmap".toList)
    || hasSub (lowerStr f) ("emea_token".toList) || hasSub (lowerStr f) ("all_tokens".toList)

theorem detectFileType_ip_of_quad {f : Str}
    (h1 : hasSub (lowerStr f) ("hostname".toList) = false)
    (h2 : hasSub (lowerStr f) ("dc".toList) = false)
    (h3 : hasSub (lowerStr f) ("datacenter".toList) = false)
    (h4 : hasSub (lowerStr f) ("tokenmap".toList) = false)
    (h5 : hasSub (lowerStr f) ("emea_token".toList) = false)
    (h6 : hasSub (lowerStr f) ("all_tokens".toList) = false)
    (hq : (matchQuad f).isSome = true) :
    detectFileType f = "ip_tokens" := by
  unfold detectFileType
  rw [h1, h2, h3, h4, h5, h6, hq]
  simp

/-- C4 counterexample: `1.2.3.4_hostname` matches the claim's second
pattern `^\d+\.\d+\.\d+\.\d+_` but classifies as `hostname`, because the
substring rules run before the dotted-quad rule. -/
theorem c4_counterexample :
    matchesIpUnderscoreName ("1.2.3.4_hostname".toList) = true ∧
    detectFileType ("1.2.3.4_hostname".toList) = "hostname" ∧
    detectFileType ("1.2.3.4_hostname".toList) ≠ "ip_tokens" := by
  refine ⟨by decide, by decide, by decide⟩

/-- C4 (amended): every filename matching `^\d+\.\d+\.\d+\.\d+(\.txt)?$`
classifies as the per-IP-token kind; a filename matching
`^\d+\.\d+\.\d+\.\d+_` classifies so provided its lower-cased form
contains none of the substrings of the earlier classifier rules
(`hostname`, `dc`, `datacenter`, `tokenmap`, `emea_token`,
`all_tokens`). -/
theorem c4_theorem (f : Str) :
    (matchesBareIpName f = true → detectFileType f = "ip_tokens") ∧
    (matchesIpUnderscoreName f = true → earlierRuleMatches f = false →
      detectFileType f = "ip_tokens") := by
  constructor
  · intro hbare
    unfold matchesBareIpName at hbare
    split at hbare
    · next rest heq =>
      have hsafe : ∀ c ∈ f, safeCh c = true := by
        intro c hc
        rcases matchQuad_chars heq c hc with hd | hdot | hrest
        · simp [safeCh, hd]
        · simp [safeCh, hdot]
        · rw [Bool.or_eq_true] at hbare
          rcases hbare with hemp | hbeq
          · rw [List.isEmpty_iff.1 hemp] at hrest
            cases hrest
          · rw [beq_iff_eq.1 hbeq] at hrest
            simp only [List.mem_cons, List.not_mem_nil, or_false] at hrest
            rcases hrest with rfl | rfl | rfl | rfl <;> decide
      have hlow : ∀ x ∈ lowerStr f, x ≠ 'h' ∧ x ≠ 'd' ∧ x ≠ 'k' ∧ x ≠ 'e' ∧ x ≠ 'a' := by
        intro x hx
        rcases List.mem_map.1 hx with ⟨c, hc, rfl⟩
        rw [lowerChar_safe (hsafe c hc)]
        exact safeCh_ne (hsafe c hc)
      refine detectFileType_ip_of_quad ?_ ?_ ?_ ?_ ?_ ?_ (by rw [heq]; rfl)
      · exact hasSub_eq_false (c := 'h') (by decide) (fun hm => (hlow _ hm).1 rfl)
      · exact hasSub_eq_false (c := 'd') (by decide) (fun hm => (hlow _ hm).2.1 rfl)
      · exact hasSub_eq_false (c := 'd') (by decide) (fun hm => (hlow _ hm).2.1 rfl)
      · exact hasSub_eq_false (c := 'k') (by decide) (fun hm => (hlow _ hm).2.2.1 rfl)
      · exact hasSub_eq_false (c := 'e') (by decide) (fun hm => (hlow _ hm).2.2.2.1 rfl)
      · exact hasSub_eq_false (c := 'a') (by decide) (fun hm => (hlow _ hm).2.2.2.2 rfl)
    · cases hbare
  · intro hund hnoearlier
    have e1 : hasSub (lowerStr f) ("hostname".toList) = false := by
      cases hx : hasSub (lowerStr f) ("hostname".toList)
      · rfl
      · rw [earlierRuleMatches, hx] at hnoearlier; simp at hnoearlier
    have e2 : hasSub (lowerStr f) ("dc".toList) = false := by
      cases hx : hasSub (lowerStr f) ("dc".toList)
      · rfl
      · rw [earlierRuleMatches, hx] at hnoearlier; simp at hnoearlier
    have e3 : hasSub (lowerStr f) ("datacenter".toList) = false := by
      cases hx : hasSub (lowerStr f) ("datacenter".toList)
      · rfl
      · rw [earlierRuleMatches, hx] at hnoearlier; simp at hnoearlier
    have e4 : hasSub (lowerStr f) ("tokenmap".toList) = false := by
      cases hx : hasSub (lowerStr f) ("tokenmap".toList)
      · rfl
      · rw [earlierRuleMatches, hx] at hnoearlier; simp at hnoearlier
    have e5 : hasSub (lowerStr f) ("emea_token".toList) = false := by
      cases hx : hasSub (lowerStr f) ("emea_token".toList)
      · rfl
      · rw [earlierRuleMatches, hx] at hnoearlier; simp at hnoearlier
    have e6 : hasSub (lowerStr f) ("all_tokens".toList) = false := by
      cases hx : hasSub (lowerStr f) ("all_tokens".toList)
      · rfl
      · rw [earlierRuleMatches, hx] at hnoearlier; simp at hnoearlier
    unfold matchesIpUnderscoreName at hund
    split at hund
    · next heq => exact detectFileType_ip_of_quad e1 e2 e3 e4 e5 e6 (by rw [heq]; rfl)
    · cases hund

theorem c4_witness :
    matchesBareIpName ("10.0.0.1.txt".toList) = true ∧
    detectFileType ("10.0.0.1.txt".toList) = "ip_tokens" :=
  ⟨by decide, ( c4_theorem ("10.0.0.1.txt".toList)).1 (by decide)⟩

/-- Absence of every classifier rule (outputParser.ts lines 18-25): no
substring rule fires, the dotted-quad regex fails, and the name does not
end in `.json`. -/
def noRuleMatches (f : Str) : Bool :=
  !earlierRuleMatches f
    && !(hasSub (lowerStr f) ("ip_tokens".toList) || (matchQuad f).isSome)
    && !hasSub (lowerStr f) ("token_list".toList)
    && !((".json".toList).isSuffixOf (lowerStr f))

/-- C7 counterexample: the filename `results.log` matches none of the
classifier's rules, and the classifier returns `unknown` — not the generic
token-list kind (`token_list`), which is a distinct kind reserved for
names containing `token_list`. -/
theorem c7_counterexample :
    noRuleMatches ("results.log".toList) = true ∧
    detectFileType ("results.log".toList) = "unknown" ∧
    detectFileType ("results.log".toList) ≠ "token_list" := by
  refine ⟨by decide, by decide, by decide⟩

/-- C7 (amended): classification is total — for every filename matching
none of the rules the classifier returns the `unknown` kind, and parsing
such a file never fails: it preserves the raw content under the `unknown`
kind instead of rejecting the file. -/
theorem c7_theorem (f content : Str) (h : noRuleMatches f = true) :
    detectFileType f = "unknown" ∧
    parseFile f content = ⟨f, "unknown", FileData.rawData content⟩ := by
  have e1 : hasSub (lowerStr f) ("hostname".toList) = false := by
    cases hx : hasSub (lowerStr f) ("hostname".toList)
    · rfl
    · rw [noRuleMatches, earlierRuleMatches, hx] at h; simp at h
  have e2 : hasSub (lowerStr f) ("dc".toList) = false := by
    cases hx : hasSub (lowerStr f) ("dc".toList)
    · rfl
    · rw [noRuleMatches, earlierRuleMatches, hx] at h; simp at h
  have e3 : hasSub (lowerStr f) ("datacenter".toList) = false := by
    cases hx : hasSub (lowerStr f) ("datacenter".toList)
    · rfl
    · rw [noRuleMatches, earlierRuleMatches, hx] at h; simp at h
  have e4 : hasSub (lowerStr f) ("tokenmap".toList) = false := by
    cases hx : hasSub (lowerStr f) ("tokenmap".toList)
    · rfl
    · rw [noRuleMatches, earlierRuleMatches, hx] at h; simp at h
  have e5 : hasSub (lowerStr f) ("emea_token".toList) = false := by
    cases hx : hasSub (lowerStr f) ("emea_token".toList)
    · rfl
    · rw [noRuleMatches, earlierRuleMatches, hx] at h; simp at h
  have e6 : hasSub (lowerStr f) ("all_tokens".toList) = false := by
    cases hx : hasSub (lowerStr f) ("all_tokens".toList)
    · rfl
    · rw [noRuleMatches, earlierRuleMatches, hx] at h; simp at h
  have e7 : hasSub (lowerStr f) ("ip_tokens".toList) = false := by
    cases hx : hasSub (lowerStr f) ("ip_tokens".toList)
    · rfl
    · rw [noRuleMatches, hx] at h; simp at h
  have e8 : (matchQuad f).isSome = false := by
    cases hx : (matchQuad f).isSome
    · rfl
    · rw [noRuleMatches, hx] at h; simp at h
  have e9 : hasSub (lowerStr f) ("token_list".toList) = false := by
    cases hx : hasSub (lowerStr f) ("token_list".toList)
    · rfl
    · rw [noRuleMatches, hx] at h; simp at h
  have e10 : ((".json".toList).isSuffixOf (lowerStr f)) = false := by
    cases hx : ((".json".toList).isSuffixOf (lowerStr f))
    · rfl
    · rw [noRuleMatches, hx] at h; simp at h
  have hdet : detectFileType f = "unknown" := by
    unfold detectFileType
    rw [e1, e2, e3, e4, e5, e6, e7, e8, e9, e10]
    simp
  refine ⟨hdet, ?_⟩
  unfold parseFile
  rw [hdet]
  rfl

theorem c7_witness :
    noRuleMatches ("foo.bar".toList) = true ∧
    (detectFileType ("foo.bar".toList) = "unknown" ∧
      parseFile ("foo.bar".toList) ("raw stuff".toList) =
        ⟨"foo.bar".toList, "unknown", FileData.rawData ("raw stuff".toList)⟩) :=
  ⟨by decide, c7_theorem ("foo.bar".toList) ("raw stuff".toList) (by decide)⟩

/-! ## C6: datacenter round-trip -/

/-- The encoding named by the spec's round-trip property: one
`dc<sep>ip1,ip2,...` line per datacenter entry.  The spec writes the
separator as `=`; the decoder actually splits on `:`. -/
def specEncodeDatacenter (sep : Char) (entries : List (Str × List Str)) : Str :=
  joinWith ['\n'] (entries.map (fun e => e.1 ++ sep :: joinWith [','] e.2))

/-- Characters of datacenter names and IPs for which encoding is
invertible: no whitespace, `:`, `,`, or newline. -/
def goodCh (c : Char) : Bool :=
  !isWsCh c && !(c == ':') && !(c == ',') && !(c == '\n')

theorem goodCh_spec {c : Char} (h : goodCh c = true) :
    isWsCh c = false ∧ c ≠ ':' ∧ c ≠ ',' ∧ c ≠ '\n' := by
  simp only [goodCh, Bool.and_eq_true, Bool.not_eq_true', beq_eq_false_iff_ne, ne_eq] at h
  obtain ⟨⟨⟨h1, h2⟩, h3⟩, h4⟩ := h
  exact ⟨h1, h2, h3, h4⟩

/-- A well-formed datacenter entry: the name and every IP consist of
`goodCh` characters, and the IP list is nonempty. -/
def goodEntry (e : Str × List Str) : Prop :=
  (∀ c ∈ e.1, goodCh c = true) ∧ e.2 ≠ [] ∧ ∀ ip ∈ e.2, ∀ c ∈ ip, goodCh c = true

instance (e : Str × List Str) : Decidable (goodEntry e) := by
  unfold goodEntry
  infer_instance

theorem dcStep_encLine (acc : List (Str × List Str)) (e : Str × List Str)
    (he : goodEntry e) :
    dcStep acc (e.1 ++ ':' :: joinWith [','] e.2) = setKey acc e.1 e.2 := by
  obtain ⟨hk, hne, hips⟩ := he
  have hkey : ∀ c ∈ e.1, (c == ':') = false := by
    intro c hc
    have := (goodCh_spec (hk c hc)).2.1
    simp [this]
  have hJcol : ∀ c ∈ joinWith [','] e.2, (c == ':') = false := by
    intro c hc
    rcases mem_joinWith hc with rfl | ⟨ip, hip, hcip⟩
    · decide
    · have := (goodCh_spec (hips ip hip c hcip)).2.1
      simp [this]
  have hsplit1 : splitOnCh (fun c => c == ':') (e.1 ++ ':' :: joinWith [','] e.2)
      = e.1 :: splitOnCh (fun c => c == ':') (joinWith [','] e.2) :=
    splitOnCh_sep (by simp) hkey
  have hsplit2 : splitOnCh (fun c => c == ':') (joinWith [','] e.2)
      = [joinWith [','] e.2] := splitOnCh_of_no hJcol
  have hkeytrim : trimStr e.1 = e.1 :=
    trimStr_eq_self (fun c hc => (goodCh_spec (hk c hc)).1)
  have hJnws : ∀ c ∈ joinWith [','] e.2, isWsCh c = false := by
    intro c hc
    rcases mem_joinWith hc with rfl | ⟨ip, hip, hcip⟩
    · decide
    · exact (goodCh_spec (hips ip hip c hcip)).1
  have hJtrim : trimStr (joinWith [','] e.2) = joinWith [','] e.2 :=
    trimStr_eq_self hJnws
  have hsplitComma : splitOnCh (fun c => c == ',') (joinWith [','] e.2) = e.2 := by
    apply splitOnCh_joinWith hne
    intro ip hip hcomma
    exact (goodCh_spec (hips ip hip ',' hcomma)).2.2.1 rfl
  have hmap : e.2.map trimStr = e.2 := by
    have htr : ∀ ip ∈ e.2, trimStr ip = ip := fun ip hip =>
      trimStr_eq_self (fun c hc => (goodCh_spec (hips ip hip c hc)).1)
    calc e.2.map trimStr = e.2.map id := List.map_congr_left htr
    _ = e.2 := List.map_id _
  unfold dcStep
  rw [hsplit1, hsplit2]
  simp only [List.map_cons, List.map_nil, hkeytrim, hJtrim]
  show setKey acc e.1
      ((splitOnCh (fun c => c == ',')
        (joinWith (":".toList) (joinWith [','] e.2 :: []))).map trimStr) = _
  show setKey acc e.1
      ((splitOnCh (fun c => c == ',') (joinWith [','] e.2)).map trimStr) = _
  rw [hsplitComma, hmap]

theorem dc_fold (entries : List (Str × List Str)) (acc : List (Str × List Str))
    (hgood : ∀ e ∈ entries, goodEntry e)
    (hnd : (entries.map Prod.fst).Nodup)
    (hfresh : ∀ e ∈ entries, e.1 ∉ acc.map Prod.fst) :
    (entries.map (fun e => e.1 ++ ':' :: joinWith [','] e.2)).foldl dcStep acc
      = acc ++ entries := by
  induction entries generalizing acc with
  | nil => simp
  | cons e rest ih =>
    rw [List.map_cons, List.foldl_cons]
    rw [dcStep_encLine acc e (hgood e (List.mem_cons_self _ _))]
    rw [setKey_append (hfresh e (List.mem_cons_self _ _))]
    have hnd2 : (e.1 :: rest.map Prod.fst).Nodup := by simpa using hnd
    have hkey_notin : e.1 ∉ rest.map Prod.fst := (List.nodup_cons.1 hnd2).1
    have hnd' : (rest.map Prod.fst).Nodup := (List.nodup_cons.1 hnd2).2
    have hfresh' : ∀ e' ∈ rest, e'.1 ∉ (acc ++ [(e.1, e.2)]).map Prod.fst := by
      intro e' he' hmem
      rw [List.map_append] at hmem
      rcases List.mem_append.1 hmem with hm | hm
      · exact hfresh e' (List.mem_cons_of_mem _ he') hm
      · simp only [List.map_cons, List.map_nil, List.mem_singleton] at hm
        exact hkey_notin (hm ▸ List.mem_map.2 ⟨e', he', rfl⟩)
    rw [ih _ (fun x hx => hgood x (List.mem_cons_of_mem _ hx)) hnd' hfresh']
    simp [List.append_assoc]

/-- C6 counterexample: encoding the one-entry mapping `dc1 ↦ [1.1.1.1]`
with the spec's `=` separator yields `dc1=1.1.1.1`, which the datacenter
decoder turns into the empty mapping — not the original one — because it
splits lines on `:`. -/
theorem c6_counterexample :
    parseDatacenter (specEncodeDatacenter '=' [("dc1".toList, ["1.1.1.1".toList])]) = [] ∧
    [(("dc1".toList : Str), ["1.1.1.1".toList])] ≠ ([] : List (Str × List Str)) := by
  refine ⟨by decide, by decide⟩

/-- C6 (amended): for every finite mapping from datacenter names to
nonempty IP lists, with distinct names and with names and IPs free of
whitespace, `:`, `,`, and newline characters, encoding it as one
`dc:ip1,ip2,...` line per datacenter — colon-separated, as the decoder
requires — and decoding reproduces the original mapping exactly. -/
theorem c6_theorem (entries : List (Str × List Str))
    (hnd : (entries.map Prod.fst).Nodup)
    (hgood : ∀ e ∈ entries, goodEntry e) :
    parseDatacenter (specEncodeDatacenter ':' entries) = entries := by
  cases entries with
  | nil => decide
  | cons e rest =>
    unfold parseDatacenter specEncodeDatacenter
    have hlines : splitOnCh (fun c => c == '\n')
        (joinWith ['\n'] ((e :: rest).map (fun x => x.1 ++ ':' :: joinWith [','] x.2)))
        = (e :: rest).map (fun x => x.1 ++ ':' :: joinWith [','] x.2) := by
      apply splitOnCh_joinWith (by simp)
      intro l hl hnl
      rcases List.mem_map.1 hl with ⟨e', he', rfl⟩
      rcases List.mem_append.1 hnl with hm | hm
      · exact (goodCh_spec ((hgood e' he').1 '\n' hm)).2.2.2 rfl
      · rcases List.mem_cons.1 hm with heq | hm
        · exact absurd heq (by decide)
        · rcases mem_joinWith hm with heq | ⟨ip, hip, hcip⟩
          · exact absurd heq (by decide)
          · exact (goodCh_spec ((hgood e' he').2.2 ip hip '\n' hcip)).2.2.2 rfl
    have hkeep : ((e :: rest).map (fun x => x.1 ++ ':' :: joinWith [','] x.2)).filter keepLine
        = (e :: rest).map (fun x => x.1 ++ ':' :: joinWith [','] x.2) := by
      rw [List.filter_eq_self]
      intro l hl
      rcases List.mem_map.1 hl with ⟨e', _, rfl⟩
      unfold keepLine
      have hb : isBlankStr (e'.1 ++ ':' :: joinWith [','] e'.2) = false := by
        cases hB : isBlankStr (e'.1 ++ ':' :: joinWith [','] e'.2)
        · rfl
        · have := List.all_eq_true.1 hB ':'
            (List.mem_append.2 (Or.inr (List.mem_cons_self _ _)))
          exact absurd this (by decide)
      simp [hb]
    unfold dcFromLines
    rw [hlines, hkeep, dc_fold _ _ hgood hnd (by simp)]
    simp

theorem c6_witness :
    ((([("dc1".toList, ["1.1.1.1".toList, "2.2.2.2".toList]),
        ("dc2".toList, ["3.3.3.3".toList])] : List (Str × List Str)).map Prod.fst).Nodup) ∧
    (∀ e ∈ ([("dc1".toList, ["1.1.1.1".toList, "2.2.2.2".toList]),
        ("dc2".toList, ["3.3.3.3".toList])] : List (Str × List Str)), goodEntry e) ∧
    parseDatacenter (specEncodeDatacenter ':'
        [("dc1".toList, ["1.1.1.1".toList, "2.2.2.2".toList]),
          ("dc2".toList, ["3.3.3.3".toList])]) =
      [("dc1".toList, ["1.1.1.1".toList, "2.2.2.2".toList]),
        ("dc2".toList, ["3.3.3.3".toList])] :=
  ⟨by decide, by decide,
    c6_theorem [("dc1".toList, ["1.1.1.1".toList, "2.2.2.2".toList]),
      ("dc2".toList, ["3.3.3.3".toList])] (by decide) (by decide)⟩

end TokenSim
